import Mathlib

/-!
Verification development for the `protoc-gen-go-http-client` code generator
(repository `getfrontierhq/buf-public-apis`).

The Go sources are shallowly embedded below: strings are Lean `String`s
(Go operates on bytes; all inputs of interest are ASCII, where the two
views agree character for character), Go slices are Lean `List`s, Go maps
are association lists whose iteration order - the one source of
nondeterminism in Go - is made explicit as an extra list argument where
the code ranges over a map.  Fallible Go functions return `Except`, and
code paths on which the Go original would panic at run time (an
out-of-range slice) are modelled by an explicit `crash` outcome.
-/

namespace BufGen

/-! ### Go string primitives

Small helpers modelling the `strings` package operations used by the
generator: `Split` on a one-character separator, `HasPrefix`/`HasSuffix`,
`TrimPrefix`/`TrimSuffix`/`TrimSpace`, `Join`, `Replace` with a count,
byte-wise lexicographic comparison (what Go's `<` on strings and
`sort.Strings` use), and first-character case changes. -/

def ofChars (l : List Char) : String := String.mk l

def splitOnChar (c : Char) : List Char → List (List Char)
  | [] => [[]]
  | x :: xs =>
    if x = c then [] :: splitOnChar c xs
    else
      match splitOnChar c xs with
      | [] => [[x]]
      | h :: t => (x :: h) :: t

/-- Go `strings.Split(s, ".")`, the dot-delimited namespace split. -/

def splitDot (s : String) : List String := (splitOnChar '.' s.data).map ofChars

/-- Go `strings.HasPrefix(s, pre)`. -/

def goStartsWith (s pre : String) : Bool := pre.data.isPrefixOf s.data

/-- Go `strings.HasSuffix(s, suf)`. -/

def goEndsWith (s suf : String) : Bool := suf.data.isSuffixOf s.data

/-- Go `strings.TrimSuffix(s, suf)`: drop one trailing copy of `suf` if present. -/

def goTrimSuffix (s suf : String) : String :=
  if goEndsWith s suf then ofChars (s.data.take (s.data.length - suf.data.length)) else s

/-- Go `strings.TrimPrefix(s, pre)`. -/

def goTrimPrefix (s pre : String) : String :=
  if goStartsWith s pre then ofChars (s.data.drop pre.data.length) else s

/-- Go `strings.TrimSpace`. -/

def goTrimSpace (s : String) : String :=
  ofChars (((s.data.dropWhile Char.isWhitespace).reverse.dropWhile Char.isWhitespace).reverse)

/-- Go `strings.Join(parts, sep)`. -/

def joinSep (sep : String) : List String → String
  | [] => ""
  | h :: t => t.foldl (fun acc x => acc ++ sep ++ x) h

/-- Go `strings.Replace(s, old, new, -1)` for one-character `old`/`new`. -/

def replaceAllChar (a b : Char) (l : List Char) : List Char :=
  l.map (fun x => if x = a then b else x)

/-- Go `strings.ToLower` for the ASCII strings the generator handles. -/

def goToLower (s : String) : String := ofChars (s.data.map Char.toLower)

/-- Go `strings.ToUpper(s[:1]) + s[1:]` (callers guard non-emptiness). -/

def upperFirst (s : String) : String :=
  match s.data with
  | [] => ""
  | c :: cs => ofChars (c.toUpper :: cs)

/-- Go `strings.ToLower(s[:1]) + s[1:]` (callers guard non-emptiness). -/

def lowerFirst (s : String) : String :=
  match s.data with
  | [] => ""
  | c :: cs => ofChars (c.toLower :: cs)

/-- Byte-wise lexicographic `≤` on character lists: the order Go's `<` on
strings induces (ASCII bytes coincide with the characters here). -/

def charsLe : List Char → List Char → Bool
  | [], _ => true
  | _ :: _, [] => false
  | a :: as, b :: bs =>
    if a.toNat < b.toNat then true
    else if b.toNat < a.toNat then false
    else charsLe as bs

/-- Go string comparison `a <= b` as used by `sort.Strings` / `sort.Slice`. -/

def goStrLe (a b : String) : Bool := charsLe a.data b.data

def sortByKey {α : Type} (k : α → String) (l : List α) : List α :=
  List.insertionSort (fun a b => goStrLe (k a) (k b) = true) l

/-- Sorting by a key under which all elements differ gives the same list
for any two input orders: with distinct keys the sorted order is unique. -/

def sortStrings (l : List String) : List String := sortByKey (fun s => s) l

/-! ### Path-parameter extraction and path compilation

`extractPathParams` models the Go regular-expression scan
`regexp.MustCompile("\x7b([^\x7d]+)\x7d").FindAllStringSubmatch(path, -1)`:
leftmost non-overlapping matches of an opening brace, one or more
non-closing-brace characters, and a closing brace.  `splitAtFirst c l`
splits `l` at the first occurrence of `c`. -/

def splitAtFirst (c : Char) : List Char → Option (List Char × List Char)
  | [] => none
  | x :: xs =>
    if x = c then some ([], xs)
    else
      match splitAtFirst c xs with
      | some (a, b) => some (x :: a, b)
      | none => none

def scanAux : List Char → Option (List Char) → List (List Char)
  | [], _ => []
  | c :: rest, none => if c = '{' then scanAux rest (some []) else scanAux rest none
  | c :: rest, some acc =>
    if c = '}' then
      if acc = [] then scanAux rest none else acc :: scanAux rest none
    else scanAux rest (some (acc ++ [c]))

/-- The parameter names matched by the placeholder scan, leftmost first. -/

def scanParamsL (l : List Char) : List (List Char) := scanAux l none

/-- The specification-side substitution, in the same single pass: every
placeholder match, in leftmost-first order, becomes its own `%s` slot;
all other characters are copied through. -/

def substAux : List Char → Option (List Char) → List Char
  | [], none => []
  | [], some acc => '{' :: acc
  | c :: rest, none => if c = '{' then substAux rest (some []) else c :: substAux rest none
  | c :: rest, some acc =>
    if c = '}' then
      if acc = [] then '{' :: '}' :: substAux rest none
      else '%' :: 's' :: substAux rest none
    else substAux rest (some (acc ++ [c]))

def substSlotsL (l : List Char) : List Char := substAux l none

/-- Go `extractPathParams`: the ordered, duplicate-preserving list of
placeholder names in a URL template. -/

def extractPathParams (path : String) : List String :=
  (scanParamsL path.data).map ofChars

/-- Go `strings.Replace(s, pat, repl, 1)`: replace the first occurrence of
`pat` (the generator only calls it with non-empty patterns). -/

def replaceFirstL (s pat repl : List Char) : List Char :=
  match s with
  | [] => []
  | x :: xs =>
    if pat.isPrefixOf (x :: xs) then repl ++ (x :: xs).drop pat.length
    else x :: replaceFirstL xs pat repl

def goReplaceFirst (s pat repl : String) : String :=
  ofChars (replaceFirstL s.data pat.data repl.data)

/-- Go `snakeToPascal`: split on underscores, upper-case the first
character of each non-empty part, concatenate. -/

def capitalizePart (part : String) : String :=
  if part.data.length > 0 then upperFirst part else part

def snakeToPascal (s : String) : String :=
  joinSep "" ((splitOnChar '_' s.data).map (fun p => capitalizePart (ofChars p)))

/-- Go `buildPathConstruction`: sequentially replace the first occurrence
of each braced parameter by a `%s` slot and emit the `fmt.Sprintf` call
text with `req.<PascalName>` arguments in parameter order. -/

def buildPathConstruction (path : String) (params : List String) : String :=
  let template := params.foldl (fun t param => goReplaceFirst t ("\x7b" ++ param ++ "\x7d") "%s") path
  let args := params.map (fun param => "req." ++ snakeToPascal param)
  "fmt.Sprintf(\"" ++ template ++ "\", " ++ joinSep ", " args ++ ")"

/-! Unfolding equations for the two placeholder scans, phrased through
`splitAtFirst`, i.e. through "the first closing brace after an opening
brace": exactly the leftmost-match reading of the regular expression. -/

def stepRepl (t : List Char) (p : List Char) : List Char :=
  replaceFirstL t (('{' :: p) ++ ['}']) ['%', 's']

inductive HttpRule where
  | get (p : String)
  | post (p : String)
  | put (p : String)
  | delete (p : String)
  | patch (p : String)
  | other
deriving DecidableEq

structure MethodMeta where
  name : String
  inputType : String
  outputType : String
  options : Option (Option HttpRule)
deriving DecidableEq

/-- Parsed `google.api.http` data (Go `HTTPInfo`). -/

structure HTTPInfo where
  method : String
  path : String
  pathParams : List String
deriving DecidableEq

/-- The error outcomes of Go `extractHTTPInfo` (the `fmt.Errorf` cases). -/

inductive ExtractError where
  | noOptions
  | noHttp
  | unsupportedPattern
deriving DecidableEq

/-- Go `extractHTTPInfo`: parse the `google.api.http` annotation of one
method, selecting the verb from the pattern oneof and scanning the path
template for parameters; the switch `default` arm fails with the
"unsupported HTTP method pattern" error. -/

def extractHTTPInfo (m : MethodMeta) : Except ExtractError HTTPInfo :=
  match m.options with
  | none => .error .noOptions
  | some none => .error .noHttp
  | some (some rule) =>
    match rule with
    | .get p => .ok { method := "GET", path := p, pathParams := extractPathParams p }
    | .post p => .ok { method := "POST", path := p, pathParams := extractPathParams p }
    | .put p => .ok { method := "PUT", path := p, pathParams := extractPathParams p }
    | .delete p => .ok { method := "DELETE", path := p, pathParams := extractPathParams p }
    | .patch p => .ok { method := "PATCH", path := p, pathParams := extractPathParams p }
    | .other => .error .unsupportedPattern

/-! ### Naming Policy (Go `types.go`) -/

def generateInterfaceName (serviceName : String) : String := serviceName

def generateImplName (serviceName : String) : String := serviceName ++ "Impl"

/-- Go `generatePrivateFieldName`: empty name stays empty; otherwise trim
a trailing `"Service"`, then trim a trailing `"Client"` from the result,
then lower-case the first character of whatever remains. -/

def generatePrivateFieldName (serviceName : String) : String :=
  if serviceName = "" then ""
  else
    let name := goTrimSuffix (goTrimSuffix serviceName "Service") "Client"
    if name.data.length > 0 then lowerFirst name else name

/-! ### Schema Collector (Go `config.go` `extractServices`)

`ProtoFile`/`ProtoService` model the `pgs.File`/`pgs.Service` inputs:
`name` is the file's map key in `targets`, `pkg` its proto package, and
`goPkg` the `InputPath().Base()` import hint. -/

structure ProtoService where
  name : String
  methods : List MethodMeta
deriving DecidableEq

structure ProtoFile where
  name : String
  pkg : String
  goPkg : String
  services : List ProtoService
deriving DecidableEq

structure Method where
  name : String
  inputType : String
  outputType : String
  http : Option HTTPInfo
deriving DecidableEq

structure Service where
  name : String
  pkg : String
  goPkg : String
  methods : List Method
deriving DecidableEq

/-- One method of the collected model: the HTTP info is set only when
extraction succeeded (`if err == nil { m.HTTP = httpInfo }`); the error
value itself is dropped at this point. -/

def collectMethod (m : MethodMeta) : Method :=
  { name := m.name, inputType := m.inputType, outputType := m.outputType,
    http := (extractHTTPInfo m).toOption }

/-- One collected service: every declared method is kept, then the
methods are sorted by name. -/

def mkService (f : ProtoFile) (svc : ProtoService) : Service :=
  { name := svc.name, pkg := f.pkg, goPkg := f.goPkg,
    methods := sortByKey Method.name (svc.methods.map collectMethod) }

/-- Go service ordering: by package, then by name (`sort.Slice` at the end
of `extractServices`). -/

def svcLeBool (a b : Service) : Bool :=
  if a.pkg = b.pkg then goStrLe a.name b.name else goStrLe a.pkg b.pkg

/-- Go `extractServices`: keep the files whose package starts with the
root package (a plain `strings.HasPrefix` test), collect every service of
every kept file, and sort services by `(package, name)`. -/

def extractServices (files : List ProtoFile) (rootPackage : String) : List Service :=
  List.insertionSort (fun a b => svcLeBool a b = true)
    ((files.filter (fun f => goStartsWith f.pkg rootPackage)).flatMap
      (fun f => f.services.map (mkService f)))

/-! ### Namespace Grouper (Go `main.go` `groupServices`)

The Go `map[string][]Service` is an association list; `insertNested`
models `nested[category] = append(nested[category], svc)`. -/

def insertNested (n : List (String × List Service)) (k : String) (v : Service) :
    List (String × List Service) :=
  match n with
  | [] => [(k, [v])]
  | (k', vs) :: rest =>
    if k' = k then (k', vs ++ [v]) :: rest else (k', vs) :: insertNested rest k v

/-- Bucket lookup: the (possibly empty) slice stored under a key. -/

def getBucket (n : List (String × List Service)) (k : String) : List Service :=
  (n.lookup k).getD []

/-- The category of a nested service: `parts[categoryIndex]`, the package
segment at index `len(strings.Split(rootPkg, "."))`.  The Go code indexes
the slice only under the length guard of `groupStep`, where `getD`
coincides with the Go access. -/

def nestedKeyOf (rootPkg : String) (svc : Service) : String :=
  (splitDot svc.pkg).getD (splitDot rootPkg).length ""

/-- One iteration of the grouping loop: exact package match goes top
level; otherwise, if the split package is longer than the split root, the
service lands in the bucket named by the segment right after the root
segments; otherwise it is dropped. -/

def groupStep (rootPkg : String) (acc : List Service × List (String × List Service))
    (svc : Service) : List Service × List (String × List Service) :=
  if svc.pkg = rootPkg then (acc.1 ++ [svc], acc.2)
  else
    if (splitDot rootPkg).length < (splitDot svc.pkg).length then
      (acc.1, insertNested acc.2 (nestedKeyOf rootPkg svc) svc)
    else acc

/-- Go `groupServices`. -/

def groupServices (services : List Service) (rootPkg : String) :
    List Service × List (String × List Service) :=
  services.foldl (groupStep rootPkg) ([], [])

/-! ### Configuration (Go `config.go` `parseClientConfig`) -/

structure ClientConfig where
  rootPackage : String
  outputSubdir : String
  clientName : String
  goModulePath : String
  httpClientPkg : String
deriving DecidableEq

/-- Outcomes of `parseClientConfig`: a config, a returned error, or a Go
runtime panic (`crash`). -/

inductive ParseResult where
  | ok (cfg : ClientConfig)
  | err (msg : String)
  | crash
deriving DecidableEq

/-- Go `strings.SplitN(s, ":", 2)`. -/

def splitN2Colon (s : String) : List String :=
  match splitAtFirst ':' s.data with
  | none => [s]
  | some (a, b) => [ofChars a, ofChars b]

/-- Go `parseClientConfig`.  `clientParam` is `params.Str("client")` and
`goModulePathParam` is `params.Str("go_module_path")` (`""` when unset).
When the root-package side trims to `""`, `strings.Split` yields `[""]`,
`lastPart` is `""`, and the Go expression `lastPart[:1]` slices an empty
string out of range: a runtime panic, modelled as `crash`. -/

def parseClientConfig (clientParam goModulePathParam : String) : ParseResult :=
  if clientParam = "" then
    .err "no client configuration specified (use: client=package:subdir)"
  else
    let parts := splitN2Colon clientParam
    if parts.length ≠ 2 then
      .err ("invalid client format: " ++ clientParam ++ " (expected: package:subdir)")
    else
      let rootPackage := goTrimSpace (parts.getD 0 "")
      let outputSubdir := goTrimSpace (parts.getD 1 "")
      let packageParts := splitDot rootPackage
      let lastPart := packageParts.getLastD ""
      if lastPart = "" then .crash
      else
        let clientName := upperFirst lastPart ++ "Client"
        let goModulePath :=
          if goModulePathParam = "" then "github.com/getfrontierhq/schema/pkg/go"
          else goModulePathParam
        let httpClientPkg := goModulePath ++ "/" ++ outputSubdir ++ "/http"
        .ok { rootPackage := rootPackage, outputSubdir := outputSubdir,
              clientName := clientName, goModulePath := goModulePath,
              httpClientPkg := httpClientPkg }

/-! ### Client Tree Builder and Emitter (Go `services.go` and `templates.go`)

The three `text/template` templates are deterministic string functions of
their data; they are rendered below by direct concatenation, action by
action, with `\x7b`/`\x7d` escapes for literal braces in the emitted Go
code. -/

structure MethodTemplateData where
  name : String
  inputType : String
  outputType : String
  http : HTTPInfo
  pathConstruction : String
deriving DecidableEq

structure ServiceTemplateData where
  serviceName : String
  importSuffix : String
  hasFmt : Bool
  methods : List MethodTemplateData
  httpClientPkg : String
  protoPackage : String
  interfaceName : String
  implName : String
  privateField : String
deriving DecidableEq

structure NestedServicesTemplateData where
  category : String
  categoryLower : String
  importSuffix : String
  hasFmt : Bool
  services : List ServiceTemplateData
  httpClientPkg : String
  protoPackage : String
  interfaceName : String
  implName : String
  privateField : String
deriving DecidableEq

structure ServiceInfo where
  fieldName : String
  typeName : String
  implName : String
  interfaceName : String
  privateField : String
deriving DecidableEq

structure NestedClientInfo where
  fieldName : String
  typeName : String
  implName : String
  interfaceName : String
  privateField : String
  services : List ServiceInfo
deriving DecidableEq

structure RootClientTemplateData where
  clientName : String
  httpClientPkg : String
  interfaceName : String
  implName : String
  topLevelServices : List ServiceInfo
  nestedClients : List NestedClientInfo
deriving DecidableEq

/-- Go `computeImportSuffix`. -/

def computeImportSuffix (pkg rootPkg : String) : String :=
  if pkg = rootPkg then ""
  else if goStartsWith pkg (rootPkg ++ ".") then
    "/" ++ ofChars (replaceAllChar '.' '/' (goTrimPrefix pkg (rootPkg ++ ".")).data)
  else ""

/-- The `fmt.Sprintf("%s/%s%s", goModulePath, Replace(rootPackage, ".", "/", -1), suffix)`
proto-import path. -/

def protoPackagePath (cfg : ClientConfig) (importSuffix : String) : String :=
  cfg.goModulePath ++ "/" ++ ofChars (replaceAllChar '.' '/' cfg.rootPackage.data) ++ importSuffix

/-- One method of the template data, built from a collected method whose
binding is present; `PathConstruction` stays `""` (the Go zero value) when
the binding has no path parameters. -/

def buildMethodData (m : Method) (h : HTTPInfo) : MethodTemplateData :=
  { name := m.name, inputType := m.inputType, outputType := m.outputType, http := h,
    pathConstruction :=
      if h.pathParams.length > 0 then buildPathConstruction h.path h.pathParams else "" }

/-- The loop body shared by `generateService` and `generateNestedServices`:
methods without an HTTP annotation are skipped outright. -/

def emittedMethods (ms : List Method) : List MethodTemplateData :=
  ms.filterMap (fun m =>
    match m.http with
    | none => none
    | some h => some (buildMethodData m h))

/-- `data.HasFmt` is set exactly when some emitted method has path
parameters. -/

def hasFmtFlag (ms : List Method) : Bool :=
  ms.any (fun m =>
    match m.http with
    | none => false
    | some h => h.pathParams.length > 0)

def buildServiceData (svc : Service) (cfg : ClientConfig) : ServiceTemplateData :=
  { serviceName := svc.name,
    importSuffix := computeImportSuffix svc.pkg cfg.rootPackage,
    hasFmt := hasFmtFlag svc.methods,
    methods := emittedMethods svc.methods,
    httpClientPkg := cfg.httpClientPkg,
    protoPackage := protoPackagePath cfg (computeImportSuffix svc.pkg cfg.rootPackage),
    interfaceName := generateInterfaceName svc.name,
    implName := generateImplName svc.name,
    privateField := generatePrivateFieldName svc.name }

/-- The interface-block line pair per method of the service templates. -/

def renderMethodSig (m : MethodTemplateData) : String :=
  "\t// " ++ m.name ++ " makes a " ++ m.http.method ++ " request to " ++ m.http.path ++ "\n" ++
  "\t" ++ m.name ++ "(ctx context.Context, req *pb." ++ m.inputType ++ ") (*pb." ++
  m.outputType ++ ", error)\n"

/-- The single verb dispatch of the method template:
`if eq .HTTP.Method "POST"` renders the `Post` call, every other verb
falls into the `else` arm and renders the `Get` call. -/

def renderDispatch (m : MethodTemplateData) : String :=
  if m.http.method = "POST" then "err := s.client.Post(ctx, path, req, resp)\n\t"
  else "err := s.client.Get(ctx, path, resp)\n\t"

/-- One generated implementation method (the `range .Methods` body of the
service templates). -/

def renderMethodImpl (implName : String) (m : MethodTemplateData) : String :=
  "\n// " ++ m.name ++ " makes a " ++ m.http.method ++ " request to " ++ m.http.path ++ "\n" ++
  "func (s *" ++ implName ++ ") " ++ m.name ++ "(ctx context.Context, req *pb." ++
  m.inputType ++ ") (*pb." ++ m.outputType ++ ", error) \x7b\n" ++
  "\tresp := &pb." ++ m.outputType ++ "\x7b\x7d\n\t" ++
  (if m.pathConstruction ≠ "" then "path := " ++ m.pathConstruction ++ "\n\t"
   else "path := \"" ++ m.http.path ++ "\"\n\t") ++
  renderDispatch m ++
  "return resp, err\n\x7d\n"

/-- The `serviceFileTemplate` rendering. -/

def renderServiceFile (d : ServiceTemplateData) : String :=
  "package client\n\nimport (\n\t\"context\"\n\t" ++
  (if d.hasFmt then "\"fmt\"\n\t" else "") ++
  "\n\t\"" ++ d.httpClientPkg ++ "\"\n\tpb \"" ++ d.protoPackage ++ "\"\n)\n\n" ++
  "// " ++ d.interfaceName ++ " defines the interface for " ++ d.serviceName ++ "\n" ++
  "type " ++ d.interfaceName ++ " interface \x7b\n" ++
  String.join (d.methods.map renderMethodSig) ++ "\x7d\n\n" ++
  "// " ++ d.implName ++ " provides " ++ d.serviceName ++ " operations\n" ++
  "type " ++ d.implName ++ " struct \x7b\n\t" ++ d.interfaceName ++
  "\n\tclient *http.HTTPClient\n\x7d\n" ++
  String.join (d.methods.map (renderMethodImpl d.implName)) ++ "\n"

/-- Go `generateService`. -/

def generateService (svc : Service) (cfg : ClientConfig) : String :=
  renderServiceFile (buildServiceData svc cfg)

/-- The per-service template data built inside `generateNestedServices`
(only naming and methods are populated; the file-level fields stay at
their zero values). -/

def buildNestedServiceData (svc : Service) : ServiceTemplateData :=
  { serviceName := svc.name, importSuffix := "", hasFmt := false,
    methods := emittedMethods svc.methods, httpClientPkg := "", protoPackage := "",
    interfaceName := generateInterfaceName svc.name,
    implName := generateImplName svc.name,
    privateField := generatePrivateFieldName svc.name }

/-- The data of `nestedServicesFileTemplate`.  Go capitalizes the category
with `strings.ToUpper(category[:1]) + category[1:]`; categories reaching
this point are non-empty namespace segments, on which `upperFirst`
coincides with that expression. -/

def buildNestedData (category : String) (services : List Service) (cfg : ClientConfig) :
    NestedServicesTemplateData :=
  let categoryCapitalized := upperFirst category
  let importSuffix := "/" ++ category
  { category := categoryCapitalized,
    categoryLower := category,
    importSuffix := importSuffix,
    hasFmt := services.any (fun svc => hasFmtFlag svc.methods),
    services := services.map buildNestedServiceData,
    httpClientPkg := cfg.httpClientPkg,
    protoPackage := protoPackagePath cfg importSuffix,
    interfaceName := generateInterfaceName (categoryCapitalized ++ "Client"),
    implName := generateImplName (categoryCapitalized ++ "Client"),
    privateField := generatePrivateFieldName (categoryCapitalized ++ "Client") }

/-- The per-service interface/impl/methods block of the nested template
(`range $svc := .Services`). -/

def renderNestedServiceBlock (svc : ServiceTemplateData) : String :=
  "\n// " ++ svc.interfaceName ++ " defines the interface for " ++ svc.serviceName ++ "\n" ++
  "type " ++ svc.interfaceName ++ " interface \x7b\n" ++
  String.join (svc.methods.map renderMethodSig) ++ "\x7d\n\n" ++
  "// " ++ svc.implName ++ " provides " ++ svc.serviceName ++ " operations\n" ++
  "type " ++ svc.implName ++ " struct \x7b\n\t" ++ svc.interfaceName ++
  "\n\tclient *http.HTTPClient\n\x7d\n" ++
  String.join (svc.methods.map (renderMethodImpl svc.implName)) ++ "\n"

/-- The `nestedServicesFileTemplate` rendering. -/

def renderNestedFile (d : NestedServicesTemplateData) : String :=
  "package client\n\nimport (\n\t\"context\"\n\t" ++
  (if d.hasFmt then "\"fmt\"\n\t" else "") ++
  "\n\t\"" ++ d.httpClientPkg ++ "\"\n\tpb \"" ++ d.protoPackage ++ "\"\n)\n\n" ++
  "// " ++ d.interfaceName ++ " defines the interface for " ++ d.category ++ " services\n" ++
  "type " ++ d.interfaceName ++ " interface \x7b\n" ++
  String.join (d.services.map (fun s => "\tGet" ++ s.serviceName ++ "() " ++ s.interfaceName ++ "\n")) ++
  "\x7d\n\n" ++
  "// " ++ d.implName ++ " groups " ++ d.categoryLower ++ " services\n" ++
  "type " ++ d.implName ++ " struct \x7b\n\t" ++ d.interfaceName ++ "\n" ++
  String.join (d.services.map (fun s => "\t" ++ s.privateField ++ " *" ++ s.implName ++ "\n")) ++
  "\x7d\n\n" ++
  String.join (d.services.map (fun s =>
    "\n// Get" ++ s.serviceName ++ " returns the " ++ s.serviceName ++ "\n" ++
    "func (c *" ++ d.implName ++ ") Get" ++ s.serviceName ++ "() " ++ s.interfaceName ++
    " \x7b\n\treturn c." ++ s.privateField ++ "\n\x7d\n")) ++
  "\n\n" ++
  String.join (d.services.map renderNestedServiceBlock)

/-- Go `generateNestedServices`. -/

def generateNestedServices (category : String) (services : List Service)
    (cfg : ClientConfig) : String :=
  renderNestedFile (buildNestedData category services cfg)

/-- Top-level `ServiceInfo` for the root client: the accessor drops a
trailing `"Service"` from the name. -/

def buildTopLevelInfo (svc : Service) : ServiceInfo :=
  { fieldName := goTrimSuffix svc.name "Service", typeName := svc.name,
    implName := generateImplName svc.name,
    interfaceName := generateInterfaceName svc.name,
    privateField := generatePrivateFieldName svc.name }

def buildNestedSvcInfo (svc : Service) : ServiceInfo :=
  { fieldName := svc.name, typeName := svc.name,
    implName := generateImplName svc.name,
    interfaceName := generateInterfaceName svc.name,
    privateField := generatePrivateFieldName svc.name }

def buildNestedClientInfo (category : String) (services : List Service) : NestedClientInfo :=
  let categoryCapitalized := upperFirst category
  { fieldName := categoryCapitalized,
    typeName := categoryCapitalized ++ "Client",
    implName := generateImplName (categoryCapitalized ++ "Client"),
    interfaceName := generateInterfaceName (categoryCapitalized ++ "Client"),
    privateField := generatePrivateFieldName (categoryCapitalized ++ "Client"),
    services := (sortByKey Service.name services).map buildNestedSvcInfo }

/-- The `rootClientTemplate` rendering. -/

def renderRootFile (d : RootClientTemplateData) : String :=
  "package client\n\nimport (\n\t\"net/http\"\n\t\"time\"\n\n\thttpclient \"" ++
  d.httpClientPkg ++ "\"\n)\n\n" ++
  "// " ++ d.interfaceName ++ " defines the interface for the root HTTP client\n" ++
  "type " ++ d.interfaceName ++ " interface \x7b\n" ++
  String.join (d.topLevelServices.map (fun s => "\tGet" ++ s.fieldName ++ "() " ++ s.interfaceName ++ "\n")) ++
  String.join (d.nestedClients.map (fun c => "\tGet" ++ c.fieldName ++ "() " ++ c.interfaceName ++ "\n")) ++
  "\x7d\n\n" ++
  "// " ++ d.implName ++ " is the root HTTP client implementation\n" ++
  "type " ++ d.implName ++ " struct \x7b\n\t" ++ d.interfaceName ++
  "\n\thttpClient *httpclient.HTTPClient\n" ++
  String.join (d.topLevelServices.map (fun s => "\t" ++ s.privateField ++ " *" ++ s.implName ++ "\n")) ++
  String.join (d.nestedClients.map (fun c => "\t" ++ c.privateField ++ " *" ++ c.implName ++ "\n")) ++
  "\x7d\n" ++
  String.join (d.topLevelServices.map (fun s =>
    "\n// Get" ++ s.fieldName ++ " returns the " ++ s.typeName ++ "\n" ++
    "func (c *" ++ d.implName ++ ") Get" ++ s.fieldName ++ "() " ++ s.interfaceName ++
    " \x7b\n\treturn c." ++ s.privateField ++ "\n\x7d\n")) ++
  String.join (d.nestedClients.map (fun c =>
    "\n// Get" ++ c.fieldName ++ " returns the " ++ c.typeName ++ "\n" ++
    "func (c *" ++ d.implName ++ ") Get" ++ c.fieldName ++ "() " ++ c.interfaceName ++
    " \x7b\n\treturn c." ++ c.privateField ++ "\n\x7d\n")) ++
  "\n\n// New" ++ d.clientName ++ " creates a new HTTP client\n" ++
  "func New" ++ d.clientName ++ "(baseURL, token string) *" ++ d.implName ++ " \x7b\n" ++
  "\thttpClient := &httpclient.HTTPClient\x7b\n\t\tBaseURL:    baseURL,\n\t\tHTTPClient: " ++
  "&http.Client\x7bTimeout: 30 * time.Second\x7d,\n\t\tToken:      token,\n\t\x7d\n\n" ++
  "\treturn &" ++ d.implName ++ "\x7b\n\t\thttpClient: httpClient,\n" ++
  String.join (d.topLevelServices.map (fun s =>
    "\t\t" ++ s.privateField ++ ": &" ++ s.implName ++ "\x7bclient: httpClient\x7d,\n")) ++
  String.join (d.nestedClients.map (fun c =>
    "\t\t" ++ c.privateField ++ ": &" ++ c.implName ++ "\x7b\n" ++
    String.join (c.services.map (fun s =>
      "\t\t\t" ++ s.privateField ++ ": &" ++ s.implName ++ "\x7bclient: httpClient\x7d,\n")) ++
    "\t\t\x7d,\n")) ++
  "\t\x7d\n\x7d\n"

/-- Go `generateRootClient`.  `keyOrder` is the iteration order in which
`range nested` yields the map's keys; the code collects them and sorts
before emitting, and sorts the services inside each bucket by name. -/

def generateRootClient (clientName : String) (topLevel : List Service)
    (nested : List (String × List Service)) (keyOrder : List String)
    (cfg : ClientConfig) : String :=
  let categories := sortStrings keyOrder
  renderRootFile
    { clientName := clientName,
      httpClientPkg := cfg.httpClientPkg,
      interfaceName := generateInterfaceName clientName,
      implName := generateImplName clientName,
      topLevelServices := topLevel.map buildTopLevelInfo,
      nestedClients := categories.map (fun c => buildNestedClientInfo c (getBucket nested c)) }

/-- The verbatim static runtime-support file (`httpClientBaseCode`): a
fixed constant copied as-is into `http/client.gen.go`; its 200-line body
is schema-independent, so only its head is reproduced here. -/

def httpClientBaseCode : String :=
  "// Package http provides a reusable HTTP client for JSON-encoded proto messages.\n" ++
  "package http\n"

/-- Go `Execute`: the whole pipeline.  `targets` carries the files of the
`targets` map in its (arbitrary) iteration order - Go sorts them by name
first thing; `catOrder` and `rootCatOrder` are the iteration orders of the
two `range nested` loops (in `Execute` and in `generateRootClient`), both
sorted before use.  Output is the ordered list of (path, content)
artifacts. -/

def execute (targets : List ProtoFile) (catOrder rootCatOrder : List String)
    (cfg : ClientConfig) : List (String × String) :=
  let files := sortByKey ProtoFile.name targets
  let services := extractServices files cfg.rootPackage
  let grouped := groupServices services cfg.rootPackage
  let topLevel := sortByKey Service.name grouped.1
  let topFiles := topLevel.map (fun svc =>
    (cfg.outputSubdir ++ "/" ++ goToLower (goTrimSuffix svc.name "Service") ++ ".gen.go",
     generateService svc cfg))
  let categories := sortStrings catOrder
  let nestedFiles := categories.map (fun category =>
    (cfg.outputSubdir ++ "/" ++ goToLower category ++ ".gen.go",
     generateNestedServices category (sortByKey Service.name (getBucket grouped.2 category)) cfg))
  let rootFile := (cfg.outputSubdir ++ "/client.gen.go",
     generateRootClient cfg.clientName topLevel grouped.2 rootCatOrder cfg)
  (cfg.outputSubdir ++ "/http/client.gen.go", httpClientBaseCode) :: topFiles ++ nestedFiles ++ [rootFile]

/-- The categories produced by grouping, in first-appearance order: the
key set of the `nested` map a run of the pipeline builds. -/

def nestedCategories (targets : List ProtoFile) (cfg : ClientConfig) : List String :=
  ((groupServices (extractServices (sortByKey ProtoFile.name targets) cfg.rootPackage)
      cfg.rootPackage).2).map Prod.fst

/-- Substring test (used to inspect generated file contents). -/

def containsSubstrL (pat : List Char) : List Char → Bool
  | [] => pat.isEmpty
  | x :: xs => pat.isPrefixOf (x :: xs) || containsSubstrL pat xs

def containsSubstr (pat s : String) : Bool := containsSubstrL pat.data s.data

/-! ### Concrete fixtures used by the concrete theorems below -/

def cfgEx : ClientConfig :=
  { rootPackage := "root", outputSubdir := "client", clientName := "RootClient",
    goModulePath := "m", httpClientPkg := "m/client/http" }

def fA : ProtoFile :=
  { name := "a.proto", pkg := "root", goPkg := "a",
    services := [{ name := "AuthService",
                   methods := [{ name := "Login", inputType := "LoginRequest",
                                 outputType := "LoginResponse",
                                 options := some (some (HttpRule.post "/v1/login")) }] }] }

def fB : ProtoFile :=
  { name := "b.proto", pkg := "root.investments", goPkg := "b",
    services := [{ name := "FundsService", methods := [] }] }

def fBarx : ProtoFile :=
  { name := "x.proto", pkg := "foo.barx", goPkg := "x",
    services := [{ name := "XService", methods := [] }] }

def metaOtherEx : MethodMeta :=
  { name := "DoThing", inputType := "DoThingRequest", outputType := "DoThingResponse",
    options := some (some HttpRule.other) }

def metaNoneEx : MethodMeta :=
  { name := "DoThing", inputType := "DoThingRequest", outputType := "DoThingResponse",
    options := some none }

def fileOtherEx : ProtoFile :=
  { name := "s.proto", pkg := "root", goPkg := "s",
    services := [{ name := "SomeService", methods := [metaOtherEx] }] }

def fileNoneEx : ProtoFile :=
  { name := "s.proto", pkg := "root", goPkg := "s",
    services := [{ name := "SomeService", methods := [metaNoneEx] }] }

def expectedFooCfg : ClientConfig :=
  { rootPackage := "foo", outputSubdir := "", clientName := "FooClient",
    goModulePath := "github.com/getfrontierhq/schema/pkg/go",
    httpClientPkg := "github.com/getfrontierhq/schema/pkg/go//http" }

def svcTopEx : Service := { name := "AuthService", pkg := "root", goPkg := "a", methods := [] }

def svcNestedEx : Service :=
  { name := "FundsService", pkg := "root.investments", goPkg := "b", methods := [] }

def svcShallowEx : Service := { name := "OddService", pkg := "rootx", goPkg := "c", methods := [] }

def verbSvcEx : Service :=
  { name := "ThingsService", pkg := "root", goPkg := "t",
    methods :=
      [{ name := "PatchThing", inputType := "PatchThingRequest", outputType := "PatchThingResponse",
         http := some { method := "PATCH", path := "/v1/things", pathParams := [] } },
       { name := "RemoveThing", inputType := "RemoveThingRequest", outputType := "RemoveThingResponse",
         http := some { method := "DELETE", path := "/v1/things", pathParams := [] } },
       { name := "UpdateThing", inputType := "UpdateThingRequest", outputType := "UpdateThingResponse",
         http := some { method := "PUT", path := "/v1/things", pathParams := [] } }] }

def mUnboundEx : Method :=
  { name := "NoBinding", inputType := "NoBindingRequest", outputType := "NoBindingResponse",
    http := none }

def hInfoEx : HTTPInfo := { method := "GET", path := "/v1/things", pathParams := [] }

def mBoundEx : Method :=
  { name := "ListThings", inputType := "ListThingsRequest", outputType := "ListThingsResponse",
    http := some hInfoEx }

instance {ε α : Type} [DecidableEq ε] [DecidableEq α] : DecidableEq (Except ε α)
  | .ok a, .ok b =>
    if h : a = b then isTrue (by rw [h]) else isFalse (fun hh => h (Except.ok.inj hh))
  | .ok _, .error _ => isFalse (fun hh => Except.noConfusion hh)
  | .error _, .ok _ => isFalse (fun hh => Except.noConfusion hh)
  | .error e, .error e' =>
    if h : e = e' then isTrue (by rw [h]) else isFalse (fun hh => h (Except.error.inj hh))

/-! ### Properties of the Namespace Grouper -/

def nestedSelect (root k : String) (s : Service) : Bool :=
  !(decide (s.pkg = root)) && decide ((splitDot root).length < (splitDot s.pkg).length)
    && decide (nestedKeyOf root s = k)

/-! ### Theorems -/

set_option maxRecDepth 40000

/-- C7: for every collected service list and root namespace, grouping
places a service in the top-level bucket iff its namespace equals the root
namespace exactly (in collection order); every other service whose split
namespace has more segments than the split root lands in the nested
bucket keyed by the segment at index `len(split(rootNamespace))`; a
service with no such next segment appears in no bucket (it is silently
dropped, and the total model shows the grouper cannot crash on it). -/

theorem data_ofChars (l : List Char) : (ofChars l).data = l := rfl

theorem string_ext {a b : String} (h : a.data = b.data) : a = b := by
  cases a; cases b; exact congrArg String.mk h

theorem data_append (a b : String) : (a ++ b).data = a.data ++ b.data := by
  cases a; cases b; rfl

/-- Go `strings.Split(s, sep)` for a single-character separator, on the
character list: `Split("", ".") = [""]`, empty fields are kept. -/

theorem char_eq_of_toNat_eq {a b : Char} (h : a.toNat = b.toNat) : a = b := by
  apply Char.eq_of_val_eq
  apply UInt32.eq_of_val_eq
  exact Fin.ext h

theorem charsLe_cons_lt {a b : Char} {as bs : List Char} (h : a.toNat < b.toNat) :
    charsLe (a :: as) (b :: bs) = true := by
  simp [charsLe, h]

theorem charsLe_cons_gt {a b : Char} {as bs : List Char} (h : b.toNat < a.toNat) :
    charsLe (a :: as) (b :: bs) = false := by
  simp [charsLe, h, Nat.lt_asymm h]

theorem charsLe_cons_eqn {a b : Char} {as bs : List Char} (h : a.toNat = b.toNat) :
    charsLe (a :: as) (b :: bs) = charsLe as bs := by
  simp [charsLe, h, Nat.lt_irrefl]

theorem charsLe_total (x y : List Char) : charsLe x y = true ∨ charsLe y x = true := by
  induction x generalizing y with
  | nil => exact Or.inl rfl
  | cons a as ih =>
    cases y with
    | nil => exact Or.inr rfl
    | cons b bs =>
      rcases Nat.lt_trichotomy a.toNat b.toNat with h | h | h
      · exact Or.inl (charsLe_cons_lt h)
      · rcases ih bs with h2 | h2
        · exact Or.inl (by rw [charsLe_cons_eqn h]; exact h2)
        · exact Or.inr (by rw [charsLe_cons_eqn h.symm]; exact h2)
      · exact Or.inr (charsLe_cons_lt h)

theorem charsLe_antisymm {x y : List Char} (hxy : charsLe x y = true)
    (hyx : charsLe y x = true) : x = y := by
  induction x generalizing y with
  | nil =>
    cases y with
    | nil => rfl
    | cons b bs => simp [charsLe] at hyx
  | cons a as ih =>
    cases y with
    | nil => simp [charsLe] at hxy
    | cons b bs =>
      rcases Nat.lt_trichotomy a.toNat b.toNat with h | h | h
      · rw [charsLe_cons_gt h] at hyx; exact absurd hyx (by simp)
      · rw [charsLe_cons_eqn h] at hxy
        rw [charsLe_cons_eqn h.symm] at hyx
        rw [char_eq_of_toNat_eq h, ih hxy hyx]
      · rw [charsLe_cons_gt h] at hxy; exact absurd hxy (by simp)

theorem charsLe_trans {x y z : List Char} (hxy : charsLe x y = true)
    (hyz : charsLe y z = true) : charsLe x z = true := by
  induction x generalizing y z with
  | nil => rfl
  | cons a as ih =>
    cases y with
    | nil => simp [charsLe] at hxy
    | cons b bs =>
      cases z with
      | nil => simp [charsLe] at hyz
      | cons c cs =>
        rcases Nat.lt_trichotomy a.toNat b.toNat with h1 | h1 | h1
        · rcases Nat.lt_trichotomy b.toNat c.toNat with h2 | h2 | h2
          · exact charsLe_cons_lt (by omega)
          · exact charsLe_cons_lt (by omega)
          · rw [charsLe_cons_gt h2] at hyz; exact absurd hyz (by simp)
        · rcases Nat.lt_trichotomy b.toNat c.toNat with h2 | h2 | h2
          · exact charsLe_cons_lt (by omega)
          · rw [charsLe_cons_eqn (by omega)]
            rw [charsLe_cons_eqn h1] at hxy
            rw [charsLe_cons_eqn h2] at hyz
            exact ih hxy hyz
          · rw [charsLe_cons_gt h2] at hyz; exact absurd hyz (by simp)
        · rw [charsLe_cons_gt h1] at hxy; exact absurd hxy (by simp)

theorem goStrLe_total (a b : String) : goStrLe a b = true ∨ goStrLe b a = true :=
  charsLe_total a.data b.data

theorem goStrLe_antisymm {a b : String} (h1 : goStrLe a b = true)
    (h2 : goStrLe b a = true) : a = b :=
  string_ext (charsLe_antisymm h1 h2)

theorem goStrLe_trans {a b c : String} (h1 : goStrLe a b = true)
    (h2 : goStrLe b c = true) : goStrLe a c = true :=
  charsLe_trans h1 h2

/-! ### Sorting

`sort.Slice`/`sort.Strings` are modelled by insertion sort with the same
comparator.  Whenever the code sorts by a key on which the elements are
pairwise distinct, the sorted sequence is the unique one, so the result
does not depend on the pre-sort order - the fact the pipeline's
determinism rests on. -/

/-- Go `sort.Slice(l, func(i, j) { return k(l[i]) < k(l[j]) })`: sort by a
string key. -/

theorem sortByKey_eq_of_perm {α : Type} (k : α → String) {l₁ l₂ : List α}
    (hp : l₁.Perm l₂) (hn : (l₁.map k).Nodup) :
    sortByKey k l₁ = sortByKey k l₂ := by
  have htot : IsTotal α (fun a b => goStrLe (k a) (k b) = true) :=
    ⟨fun a b => goStrLe_total (k a) (k b)⟩
  have htrans : IsTrans α (fun a b => goStrLe (k a) (k b) = true) :=
    ⟨fun _ _ _ => goStrLe_trans⟩
  have p₁ : (sortByKey k l₁).Perm l₁ := List.perm_insertionSort _ l₁
  have p₂ : (sortByKey k l₂).Perm l₂ := List.perm_insertionSort _ l₂
  have s₁ : List.Sorted (fun a b => goStrLe (k a) (k b) = true) (sortByKey k l₁) :=
    List.sorted_insertionSort _ l₁
  have s₂ : List.Sorted (fun a b => goStrLe (k a) (k b) = true) (sortByKey k l₂) :=
    List.sorted_insertionSort _ l₂
  have hn₂ : (l₂.map k).Nodup := hn.perm (hp.map k)
  have nd₁ : ((sortByKey k l₁).map k).Nodup := hn.perm (p₁.map k).symm
  have nd₂ : ((sortByKey k l₂).map k).Nodup := hn₂.perm (p₂.map k).symm
  have pw₁ : (sortByKey k l₁).Pairwise (fun a b => k a ≠ k b) :=
    List.pairwise_map.mp nd₁
  have pw₂ : (sortByKey k l₂).Pairwise (fun a b => k a ≠ k b) :=
    List.pairwise_map.mp nd₂
  have str₁ : (sortByKey k l₁).Pairwise (fun a b => goStrLe (k a) (k b) = true ∧ k a ≠ k b) :=
    s₁.and pw₁
  have str₂ : (sortByKey k l₂).Pairwise (fun a b => goStrLe (k a) (k b) = true ∧ k a ≠ k b) :=
    s₂.and pw₂
  have hanti : IsAntisymm α (fun a b => goStrLe (k a) (k b) = true ∧ k a ≠ k b) :=
    ⟨fun _ _ h1 h2 => absurd (goStrLe_antisymm h1.1 h2.1) h1.2⟩
  have hperm : (sortByKey k l₁).Perm (sortByKey k l₂) :=
    p₁.trans (hp.trans p₂.symm)
  exact @List.eq_of_perm_of_sorted _ _ hanti _ _ hperm str₁ str₂

/-- Go `sort.Strings`. -/

theorem splitAtFirst_eq {c : Char} {l a b : List Char}
    (h : splitAtFirst c l = some (a, b)) : l = a ++ c :: b ∧ c ∉ a := by
  induction l generalizing a b with
  | nil => simp [splitAtFirst] at h
  | cons x xs ih =>
    by_cases hx : x = c
    · simp only [splitAtFirst, if_pos hx, Option.some.injEq, Prod.mk.injEq] at h
      obtain ⟨h1, h2⟩ := h
      subst h1; subst h2
      simp [hx]
    · simp only [splitAtFirst, if_neg hx] at h
      cases hsp : splitAtFirst c xs with
      | none => rw [hsp] at h; exact absurd h (by simp)
      | some ab =>
        obtain ⟨a', b'⟩ := ab
        rw [hsp] at h
        simp only [Option.some.injEq, Prod.mk.injEq] at h
        obtain ⟨h1, h2⟩ := h
        subst h2; subst h1
        obtain ⟨hshape, hmem⟩ := ih hsp
        refine ⟨by rw [hshape]; simp, ?_⟩
        intro hc
        rcases List.mem_cons.mp hc with hcx | hca
        · exact hx hcx.symm
        · exact hmem hca

theorem splitAtFirst_length {c : Char} {l a b : List Char}
    (h : splitAtFirst c l = some (a, b)) : b.length < l.length := by
  rcases splitAtFirst_eq h with ⟨hshape, _⟩
  rw [hshape]
  simp
  omega

/-- The placeholder scan as the single left-to-right pass the regex
engine makes over the template.  State `none`: outside any candidate
match; state `some acc`: an opening brace has been read and `acc` holds
the name characters seen since.  A closing brace completes a match when
at least one name character accumulated (the pattern needs one or more
non-closing-brace characters); an immediately-closing brace pair is no
match; an unmatched opening brace in the tail matches nothing. -/

theorem splitAtFirst_cons_self (c : Char) (xs : List Char) :
    splitAtFirst c (c :: xs) = some ([], xs) := by
  simp [splitAtFirst]

theorem scanAux_inside_none {xs : List Char} (h : splitAtFirst '}' xs = none) :
    ∀ acc : List Char, scanAux xs (some acc) = [] := by
  induction xs with
  | nil => intro acc; rfl
  | cons x rest ih =>
    intro acc
    by_cases hx : x = '}'
    · subst hx; rw [splitAtFirst_cons_self] at h; exact Option.noConfusion h
    · simp only [splitAtFirst, if_neg hx] at h
      cases hsp : splitAtFirst '}' rest with
      | none =>
        rw [scanAux, if_neg hx]
        exact ih hsp (acc ++ [x])
      | some ab => rw [hsp] at h; simp at h

theorem scanAux_inside_some {xs a b : List Char} (h : splitAtFirst '}' xs = some (a, b)) :
    ∀ acc : List Char, scanAux xs (some acc) =
      if acc ++ a = [] then scanAux b none else (acc ++ a) :: scanAux b none := by
  induction xs generalizing a b with
  | nil => intro acc; exact Option.noConfusion h
  | cons x rest ih =>
    intro acc
    by_cases hx : x = '}'
    · subst hx
      rw [splitAtFirst_cons_self] at h
      injection h with h'
      injection h' with ha hb
      subst ha; subst hb
      by_cases hacc : acc = [] <;> simp [scanAux, hacc]
    · simp only [splitAtFirst, if_neg hx] at h
      cases hsp : splitAtFirst '}' rest with
      | none => rw [hsp] at h; exact Option.noConfusion h
      | some ab =>
        obtain ⟨a', b'⟩ := ab
        rw [hsp] at h
        injection h with h'
        injection h' with ha hb
        subst ha; subst hb
        rw [scanAux, if_neg hx, ih hsp (acc ++ [x])]
        have hne : acc ++ [x] ++ a' ≠ [] := by simp
        have hne2 : acc ++ (x :: a') ≠ [] := by simp
        rw [if_neg hne, if_neg hne2, List.append_assoc]
        rfl

theorem substAux_inside_none {xs : List Char} (h : splitAtFirst '}' xs = none) :
    ∀ acc : List Char, substAux xs (some acc) = '{' :: acc ++ xs := by
  induction xs with
  | nil => intro acc; simp [substAux]
  | cons x rest ih =>
    intro acc
    by_cases hx : x = '}'
    · subst hx; rw [splitAtFirst_cons_self] at h; exact Option.noConfusion h
    · simp only [splitAtFirst, if_neg hx] at h
      cases hsp : splitAtFirst '}' rest with
      | none =>
        rw [substAux, if_neg hx, ih hsp (acc ++ [x])]
        simp
      | some ab => rw [hsp] at h; simp at h

theorem substAux_inside_some {xs a b : List Char} (h : splitAtFirst '}' xs = some (a, b)) :
    ∀ acc : List Char, substAux xs (some acc) =
      if acc ++ a = [] then '{' :: '}' :: substAux b none
      else '%' :: 's' :: substAux b none := by
  induction xs generalizing a b with
  | nil => intro acc; exact Option.noConfusion h
  | cons x rest ih =>
    intro acc
    by_cases hx : x = '}'
    · subst hx
      rw [splitAtFirst_cons_self] at h
      injection h with h'
      injection h' with ha hb
      subst ha; subst hb
      by_cases hacc : acc = [] <;> simp [substAux, hacc]
    · simp only [splitAtFirst, if_neg hx] at h
      cases hsp : splitAtFirst '}' rest with
      | none => rw [hsp] at h; exact Option.noConfusion h
      | some ab =>
        obtain ⟨a', b'⟩ := ab
        rw [hsp] at h
        injection h with h'
        injection h' with ha hb
        subst ha; subst hb
        rw [substAux, if_neg hx, ih hsp (acc ++ [x])]
        have hne : acc ++ [x] ++ a' ≠ [] := by simp
        have hne2 : acc ++ (x :: a') ≠ [] := by simp
        rw [if_neg hne, if_neg hne2]

theorem scanParamsL_nil : scanParamsL [] = [] := rfl

theorem scanParamsL_other {x : Char} (xs : List Char) (hx : x ≠ '{') :
    scanParamsL (x :: xs) = scanParamsL xs := by
  unfold scanParamsL
  rw [scanAux, if_neg hx]

theorem scanParamsL_none {xs : List Char} (h : splitAtFirst '}' xs = none) :
    scanParamsL ('{' :: xs) = [] := by
  unfold scanParamsL
  rw [scanAux, if_pos rfl]
  exact scanAux_inside_none h []

theorem scanParamsL_noName {xs rest : List Char}
    (h : splitAtFirst '}' xs = some ([], rest)) :
    scanParamsL ('{' :: xs) = scanParamsL xs := by
  obtain ⟨hshape, -⟩ := splitAtFirst_eq h
  simp only [List.nil_append] at hshape
  unfold scanParamsL
  rw [scanAux, if_pos rfl, scanAux_inside_some h []]
  rw [hshape, scanAux, if_neg (by decide : ¬ ('}' : Char) = '{')]
  simp

theorem scanParamsL_found {xs name rest : List Char}
    (h : splitAtFirst '}' xs = some (name, rest)) (hn : name ≠ []) :
    scanParamsL ('{' :: xs) = name :: scanParamsL rest := by
  unfold scanParamsL
  rw [scanAux, if_pos rfl, scanAux_inside_some h []]
  simp [hn]

theorem substSlotsL_nil : substSlotsL [] = [] := rfl

theorem substSlotsL_other {x : Char} (xs : List Char) (hx : x ≠ '{') :
    substSlotsL (x :: xs) = x :: substSlotsL xs := by
  unfold substSlotsL
  rw [substAux, if_neg hx]

theorem substSlotsL_none {xs : List Char} (h : splitAtFirst '}' xs = none) :
    substSlotsL ('{' :: xs) = '{' :: xs := by
  unfold substSlotsL
  rw [substAux, if_pos rfl, substAux_inside_none h []]
  rfl

theorem substSlotsL_noName {xs rest : List Char}
    (h : splitAtFirst '}' xs = some ([], rest)) :
    substSlotsL ('{' :: xs) = '{' :: substSlotsL xs := by
  obtain ⟨hshape, -⟩ := splitAtFirst_eq h
  simp only [List.nil_append] at hshape
  unfold substSlotsL
  rw [substAux, if_pos rfl, substAux_inside_some h []]
  rw [hshape, substAux, if_neg (by decide : ¬ ('}' : Char) = '{')]
  simp

theorem substSlotsL_found {xs name rest : List Char}
    (h : splitAtFirst '}' xs = some (name, rest)) (hn : name ≠ []) :
    substSlotsL ('{' :: xs) = '%' :: 's' :: substSlotsL rest := by
  unfold substSlotsL
  rw [substAux, if_pos rfl, substAux_inside_some h []]
  simp [hn]

/-- Every scanned parameter name is non-empty and free of closing braces. -/

theorem scanParamsL_wf_aux : ∀ (n : Nat) (l : List Char), l.length ≤ n →
    ∀ p ∈ scanParamsL l, p ≠ [] ∧ '}' ∉ p := by
  intro n
  induction n with
  | zero =>
    intro l hl
    have : l = [] := List.length_eq_zero.mp (Nat.le_zero.mp hl)
    subst this
    simp [scanParamsL_nil]
  | succ n ih =>
    intro l hl p hp
    cases l with
    | nil => simp [scanParamsL_nil] at hp
    | cons x xs =>
      by_cases hx : x = '{'
      · subst hx
        cases hsp : splitAtFirst '}' xs with
        | none => rw [scanParamsL_none hsp] at hp; simp at hp
        | some ab =>
          obtain ⟨name, rest⟩ := ab
          by_cases hn : name = []
          · subst hn
            rw [scanParamsL_noName hsp] at hp
            exact ih xs (by simpa using hl) p hp
          · rw [scanParamsL_found hsp hn] at hp
            rcases List.mem_cons.mp hp with hpn | hpr
            · subst hpn
              exact ⟨hn, (splitAtFirst_eq hsp).2⟩
            · have h1 := splitAtFirst_length hsp
              have hrest : rest.length ≤ n := by simp at hl; omega
              exact ih rest hrest p hpr
      · rw [scanParamsL_other xs hx] at hp
        exact ih xs (by simpa using hl) p hp

theorem scanParamsL_wf {l : List Char} : ∀ p ∈ scanParamsL l, p ≠ [] ∧ '}' ∉ p :=
  scanParamsL_wf_aux l.length l (Nat.le_refl _)

/-- One sequential-replacement step of `buildPathConstruction`, at the
character-list level. -/

theorem stepRepl_cons {p : List Char} {c : Char} (hc : c ≠ '{') (s : List Char) :
    stepRepl (c :: s) p = c :: stepRepl s p := by
  unfold stepRepl
  have hpre : (('{' :: p) ++ ['}']).isPrefixOf (c :: s) = false := by
    rw [List.cons_append, List.isPrefixOf]
    simp [Ne.symm hc]
  rw [replaceFirstL, hpre]
  simp

theorem foldl_stepRepl_cons {ps : List (List Char)} {c : Char} (hc : c ≠ '{') :
    ∀ s : List Char, ps.foldl stepRepl (c :: s) = c :: ps.foldl stepRepl s := by
  induction ps with
  | nil => intro s; rfl
  | cons p ps ih =>
    intro s
    rw [List.foldl_cons, List.foldl_cons, stepRepl_cons hc, ih]

theorem stepRepl_braces {p : List Char} (hp : p ≠ []) (hnb : '}' ∉ p) (s : List Char) :
    stepRepl ('{' :: '}' :: s) p = '{' :: '}' :: stepRepl s p := by
  unfold stepRepl
  have hpre : (('{' :: p) ++ ['}']).isPrefixOf ('{' :: '}' :: s) = false := by
    rw [List.cons_append, List.isPrefixOf]
    obtain ⟨q, p', rfl⟩ := List.exists_cons_of_ne_nil hp
    have hq : q ≠ '}' := fun h => hnb (h ▸ List.mem_cons_self q p')
    rw [List.cons_append, List.isPrefixOf]
    simp [hq]
  have hpre2 : (('{' :: p) ++ ['}']).isPrefixOf ('}' :: s) = false := by
    rw [List.cons_append, List.isPrefixOf]
    simp
  rw [replaceFirstL, hpre]
  simp only [Bool.false_eq_true, if_false]
  rw [replaceFirstL, hpre2]
  simp

theorem foldl_stepRepl_braces {ps : List (List Char)}
    (hwf : ∀ p ∈ ps, p ≠ [] ∧ '}' ∉ p) :
    ∀ s : List Char, ps.foldl stepRepl ('{' :: '}' :: s) = '{' :: '}' :: ps.foldl stepRepl s := by
  induction ps with
  | nil => intro s; rfl
  | cons p ps ih =>
    intro s
    have hp := hwf p (List.mem_cons_self p ps)
    rw [List.foldl_cons, List.foldl_cons, stepRepl_braces hp.1 hp.2,
      ih (fun q hq => hwf q (List.mem_cons_of_mem _ hq))]

theorem replaceFirstL_of_isPrefix {s pat repl : List Char}
    (h : pat.isPrefixOf s = true) (hne : pat ≠ []) :
    replaceFirstL s pat repl = repl ++ s.drop pat.length := by
  cases s with
  | nil =>
    obtain ⟨q, p', rfl⟩ := List.exists_cons_of_ne_nil hne
    simp [List.isPrefixOf] at h
  | cons x xs => rw [replaceFirstL, if_pos h]

/-- Core of the Path Compiler correctness: when the parameter list is the
scanned placeholder list, Go's sequential first-occurrence replacement
produces exactly the left-to-right one-slot-per-occurrence template. -/

theorem foldl_stepRepl_eq_substSlots_aux : ∀ (n : Nat) (l : List Char), l.length ≤ n →
    (scanParamsL l).foldl stepRepl l = substSlotsL l := by
  intro n
  induction n with
  | zero =>
    intro l hl
    have : l = [] := List.length_eq_zero.mp (Nat.le_zero.mp hl)
    subst this
    rw [scanParamsL_nil, substSlotsL_nil]
    rfl
  | succ n ih =>
    intro l hl
    cases l with
    | nil =>
      rw [scanParamsL_nil, substSlotsL_nil]
      rfl
    | cons x xs =>
      have hxs : xs.length ≤ n := by simp at hl; omega
      by_cases hx : x = '{'
      · subst hx
        cases hsp : splitAtFirst '}' xs with
        | none =>
          rw [scanParamsL_none hsp, substSlotsL_none hsp]
          rfl
        | some ab =>
          obtain ⟨name, rest⟩ := ab
          have hrest : rest.length ≤ n := by
            have h1 := splitAtFirst_length hsp
            omega
          by_cases hn : name = []
          · subst hn
            obtain ⟨hshape, -⟩ := splitAtFirst_eq hsp
            simp only [List.nil_append] at hshape
            rw [scanParamsL_noName hsp, substSlotsL_noName hsp]
            subst hshape
            rw [scanParamsL_other rest (by decide)]
            rw [substSlotsL_other rest (by decide)]
            rw [foldl_stepRepl_braces (fun q hq => scanParamsL_wf q hq)]
            rw [ih rest hrest]
          · obtain ⟨hshape, hnb⟩ := splitAtFirst_eq hsp
            rw [scanParamsL_found hsp hn, substSlotsL_found hsp hn]
            rw [List.foldl_cons]
            have hl2 : '{' :: xs = (('{' :: name) ++ ['}']) ++ rest := by
              rw [hshape]; simp
            have hstep : stepRepl ('{' :: xs) name = '%' :: 's' :: rest := by
              unfold stepRepl
              rw [hl2]
              rw [replaceFirstL_of_isPrefix
                (List.isPrefixOf_iff_prefix.mpr (List.prefix_append _ _)) (by simp)]
              rw [List.drop_left]
              rfl
            rw [hstep]
            rw [foldl_stepRepl_cons (by decide), foldl_stepRepl_cons (by decide)]
            rw [ih rest hrest]
      · rw [scanParamsL_other xs hx, substSlotsL_other xs hx]
        rw [foldl_stepRepl_cons hx, ih xs hxs]

theorem foldl_stepRepl_eq_substSlots (l : List Char) :
    (scanParamsL l).foldl stepRepl l = substSlotsL l :=
  foldl_stepRepl_eq_substSlots_aux l.length l (Nat.le_refl _)

/-! ### Data model and Binding Extractor

`HttpRule` mirrors the `google.api.http` pattern oneof; `other` stands for
the `default` arm of the Go switch (a pattern that is unset or a custom
kind, i.e. none of the five recognized verb sub-fields).  A method's
option metadata is `none` (no options), `some none` (options but no http
extension), or `some (some rule)`. -/

theorem ofChars_data (s : String) : ofChars s.data = s := by cases s; rfl

theorem getBucket_insertNested_self (n : List (String × List Service)) (k : String) (v : Service) :
    getBucket (insertNested n k v) k = getBucket n k ++ [v] := by
  induction n with
  | nil => simp [insertNested, getBucket, List.lookup]
  | cons e rest ih =>
    obtain ⟨k', vs⟩ := e
    by_cases hk : k' = k
    · subst hk
      simp [insertNested, getBucket, List.lookup]
    · have hbeq : (k == k') = false := beq_eq_false_iff_ne.mpr (fun h => hk h.symm)
      simp only [insertNested, if_neg hk]
      simp [getBucket, List.lookup, hbeq] at ih ⊢
      exact ih

theorem getBucket_insertNested_ne (n : List (String × List Service)) (k : String) (v : Service)
    (k' : String) (h : k' ≠ k) :
    getBucket (insertNested n k v) k' = getBucket n k' := by
  induction n with
  | nil =>
    have hbeq : (k' == k) = false := beq_eq_false_iff_ne.mpr h
    simp [insertNested, getBucket, List.lookup, hbeq]
  | cons e rest ih =>
    obtain ⟨k'', vs⟩ := e
    by_cases hk : k'' = k
    · subst hk
      have hbeq : (k' == k'') = false := beq_eq_false_iff_ne.mpr h
      simp [insertNested, getBucket, List.lookup, hbeq]
    · simp only [insertNested, if_neg hk]
      by_cases hk2 : k' = k''
      · subst hk2
        simp [getBucket, List.lookup]
      · have hbeq : (k' == k'') = false := beq_eq_false_iff_ne.mpr hk2
        simp [getBucket, List.lookup, hbeq] at ih ⊢
        exact ih

theorem groupStep_fst_top {root : String} {acc} {s : Service} (h : s.pkg = root) :
    (groupStep root acc s).1 = acc.1 ++ [s] := by
  simp [groupStep, h]

theorem groupStep_fst_other {root : String} {acc} {s : Service} (h : ¬ s.pkg = root) :
    (groupStep root acc s).1 = acc.1 := by
  unfold groupStep
  rw [if_neg h]
  split <;> rfl

theorem groupStep_snd_top {root : String} {acc} {s : Service} (h : s.pkg = root) :
    (groupStep root acc s).2 = acc.2 := by
  simp [groupStep, h]

theorem groupStep_snd_deep {root : String} {acc} {s : Service} (h : ¬ s.pkg = root)
    (h2 : (splitDot root).length < (splitDot s.pkg).length) :
    (groupStep root acc s).2 = insertNested acc.2 (nestedKeyOf root s) s := by
  unfold groupStep
  rw [if_neg h, if_pos h2]

theorem groupStep_snd_short {root : String} {acc} {s : Service} (h : ¬ s.pkg = root)
    (h2 : ¬ (splitDot root).length < (splitDot s.pkg).length) :
    (groupStep root acc s).2 = acc.2 := by
  unfold groupStep
  rw [if_neg h, if_neg h2]

theorem groupFold_fst (root : String) : ∀ (l : List Service) (acc),
    (l.foldl (groupStep root) acc).1 = acc.1 ++ l.filter (fun s => decide (s.pkg = root)) := by
  intro l
  induction l with
  | nil => intro acc; simp
  | cons s rest ih =>
    intro acc
    rw [List.foldl_cons, ih, List.filter_cons]
    by_cases h : s.pkg = root
    · rw [groupStep_fst_top h]
      simp [h]
    · rw [groupStep_fst_other h]
      simp [h]

/-- The services that end in the bucket named `k`. -/

theorem groupFold_bucket (root k : String) : ∀ (l : List Service) (acc),
    getBucket ((l.foldl (groupStep root) acc).2) k
      = getBucket acc.2 k ++ l.filter (nestedSelect root k) := by
  intro l
  induction l with
  | nil => intro acc; simp
  | cons s rest ih =>
    intro acc
    rw [List.foldl_cons, ih, List.filter_cons]
    by_cases h1 : s.pkg = root
    · rw [groupStep_snd_top h1]
      simp [nestedSelect, h1]
    · by_cases h2 : (splitDot root).length < (splitDot s.pkg).length
      · rw [groupStep_snd_deep h1 h2]
        by_cases h3 : nestedKeyOf root s = k
        · rw [← h3, getBucket_insertNested_self, h3]
          simp [nestedSelect, h1, h2, h3]
        · rw [getBucket_insertNested_ne _ _ _ _ (fun hh => h3 hh.symm)]
          simp [nestedSelect, h1, h2, h3]
      · rw [groupStep_snd_short h1 h2]
        simp [nestedSelect, h1, h2]

theorem getBucket_groupServices (services : List Service) (root k : String) :
    getBucket (groupServices services root).2 k = services.filter (nestedSelect root k) := by
  unfold groupServices
  rw [groupFold_bucket root k services ([], [])]
  simp [getBucket, List.lookup]

theorem insertNested_keys (n : List (String × List Service)) (k : String) (v : Service) :
    (insertNested n k v).map Prod.fst =
      if k ∈ n.map Prod.fst then n.map Prod.fst else n.map Prod.fst ++ [k] := by
  induction n with
  | nil => simp [insertNested]
  | cons e rest ih =>
    obtain ⟨k', vs⟩ := e
    by_cases hk : k' = k
    · subst hk
      simp [insertNested]
    · simp only [insertNested, if_neg hk, List.map_cons]
      rw [ih]
      by_cases hmem : k ∈ rest.map Prod.fst
      · simp [hmem, List.mem_cons, Ne.symm hk]
      · simp [hmem, List.mem_cons, Ne.symm hk]

theorem insertNested_keys_nodup {n : List (String × List Service)} {k : String} {v : Service}
    (h : (n.map Prod.fst).Nodup) : ((insertNested n k v).map Prod.fst).Nodup := by
  rw [insertNested_keys]
  by_cases hmem : k ∈ n.map Prod.fst
  · simpa [hmem] using h
  · rw [if_neg hmem, List.nodup_append]
    refine ⟨h, List.nodup_singleton k, ?_⟩
    intro a ha hb
    rw [List.mem_singleton] at hb
    subst hb
    exact hmem ha

theorem groupFold_keys_nodup (root : String) : ∀ (l : List Service) (acc),
    ((acc.2).map Prod.fst).Nodup → (((l.foldl (groupStep root) acc).2).map Prod.fst).Nodup := by
  intro l
  induction l with
  | nil => intro acc h; exact h
  | cons s rest ih =>
    intro acc h
    rw [List.foldl_cons]
    apply ih
    by_cases h1 : s.pkg = root
    · rw [groupStep_snd_top h1]; exact h
    · by_cases h2 : (splitDot root).length < (splitDot s.pkg).length
      · rw [groupStep_snd_deep h1 h2]
        exact insertNested_keys_nodup h
      · rw [groupStep_snd_short h1 h2]; exact h

theorem groupServices_keys_nodup (services : List Service) (root : String) :
    (((groupServices services root).2).map Prod.fst).Nodup :=
  groupFold_keys_nodup root services ([], []) (by simp)

theorem c7_grouping_characterization :
    ∀ (services : List Service) (root : String),
      (groupServices services root).1 = services.filter (fun s => decide (s.pkg = root)) ∧
      (∀ s ∈ services, ¬ s.pkg = root →
        (splitDot root).length < (splitDot s.pkg).length →
        s ∈ getBucket (groupServices services root).2 (nestedKeyOf root s)) ∧
      (∀ s : Service, ¬ s.pkg = root →
        ¬ (splitDot root).length < (splitDot s.pkg).length →
        ∀ k : String, s ∉ getBucket (groupServices services root).2 k) := by
  intro services root
  refine ⟨?_, ?_, ?_⟩
  · have h := groupFold_fst root services ([], [])
    simpa [groupServices] using h
  · intro s hs h1 h2
    rw [getBucket_groupServices, List.mem_filter]
    refine ⟨hs, ?_⟩
    simp [nestedSelect, h1, h2]
  · intro s h1 h2 k hmem
    rw [getBucket_groupServices, List.mem_filter] at hmem
    have h := hmem.2
    simp [nestedSelect, h1, h2] at h

/-- C7 witness: a service in `root.investments` lands in the bucket named
by its segment after the root, with a dropped `rootx` service alongside. -/

theorem c7_witness :
    svcNestedEx ∈ getBucket (groupServices [svcTopEx, svcNestedEx, svcShallowEx] "root").2
      (nestedKeyOf "root" svcNestedEx) :=
  (c7_grouping_characterization [svcTopEx, svcNestedEx, svcShallowEx] "root").2.1 svcNestedEx
    (by decide) (by decide) (by decide)

theorem generateRootClient_keyOrder_eq {clientName : String} {topLevel : List Service}
    {nested : List (String × List Service)} {cfg : ClientConfig} {p₁ p₂ : List String}
    (h : sortStrings p₁ = sortStrings p₂) :
    generateRootClient clientName topLevel nested p₁ cfg
      = generateRootClient clientName topLevel nested p₂ cfg := by
  unfold generateRootClient
  rw [h]

/-- C6: the pipeline is deterministic.  The only nondeterminism Go admits
on a fixed input is map iteration order: the order the `targets` map
yields its files (distinct file names) and the orders the two
`range nested` loops yield the category keys.  For any two runs - any
permutations of those iteration orders - the emitted (path, content) list
is identical: same file names, same order, same content. -/

theorem c6_pipeline_deterministic (cfg : ClientConfig) (t₁ t₂ : List ProtoFile)
    (o₁ o₂ p₁ p₂ : List String)
    (ht : t₁.Perm t₂) (hn : (t₁.map ProtoFile.name).Nodup)
    (ho₁ : o₁.Perm (nestedCategories t₁ cfg)) (ho₂ : o₂.Perm (nestedCategories t₂ cfg))
    (hp₁ : p₁.Perm (nestedCategories t₁ cfg)) (hp₂ : p₂.Perm (nestedCategories t₂ cfg)) :
    execute t₁ o₁ p₁ cfg = execute t₂ o₂ p₂ cfg := by
  have hfiles : sortByKey ProtoFile.name t₁ = sortByKey ProtoFile.name t₂ :=
    sortByKey_eq_of_perm ProtoFile.name ht hn
  have hcats : nestedCategories t₂ cfg = nestedCategories t₁ cfg := by
    unfold nestedCategories
    rw [hfiles]
  have hknd : (nestedCategories t₁ cfg).Nodup := groupServices_keys_nodup _ _
  have hsort : ∀ {q₁ q₂ : List String}, q₁.Perm (nestedCategories t₁ cfg) →
      q₂.Perm (nestedCategories t₁ cfg) → sortStrings q₁ = sortStrings q₂ := by
    intro q₁ q₂ h₁ h₂
    unfold sortStrings
    apply sortByKey_eq_of_perm (fun s => s) (h₁.trans h₂.symm)
    rw [List.map_id']
    exact hknd.perm h₁.symm
  have ho : sortStrings o₁ = sortStrings o₂ := hsort ho₁ (hcats ▸ ho₂)
  have hp : sortStrings p₁ = sortStrings p₂ := hsort hp₁ (hcats ▸ hp₂)
  unfold execute
  dsimp only
  rw [hfiles, ho, generateRootClient_keyOrder_eq hp]

/-- C6 witness: the file permutation `[fA, fB]` versus `[fB, fA]` yields
byte-identical artifact lists. -/

theorem c6_witness :
    execute [fA, fB] ["investments"] ["investments"] cfgEx
      = execute [fB, fA] ["investments"] ["investments"] cfgEx :=
  c6_pipeline_deterministic cfgEx [fA, fB] [fB, fA]
    ["investments"] ["investments"] ["investments"] ["investments"]
    (by decide) (by decide) (by decide) (by decide) (by decide) (by decide)

/-- C2 counterexample: with root namespace `"foo.bar"`, the file in
package `"foo.barx"` is collected - `extractServices` uses a plain
`strings.HasPrefix` test, not a dot-delimited descendant check, so the
claim's exclusion is false on the code. -/

theorem c2_counterexample :
    extractServices [fBarx] "foo.bar"
      = [{ name := "XService", pkg := "foo.barx", goPkg := "x", methods := [] }] ∧
    extractServices [fBarx] "foo.bar" ≠ [] := by decide

/-- C2 amended: the Schema Collector includes a file's services iff the
configured root namespace is a plain string prefix of the file's package
(so `"foo.barx"` is included under root `"foo.bar"`). -/

theorem c2_amended_prefix_membership :
    ∀ (files : List ProtoFile) (root : String) (s : Service),
      s ∈ extractServices files root ↔
        ∃ f ∈ files, goStartsWith f.pkg root = true ∧ s ∈ f.services.map (mkService f) := by
  intro files root s
  unfold extractServices
  rw [List.Perm.mem_iff (List.perm_insertionSort _ _)]
  simp only [List.mem_flatMap, List.mem_filter]
  constructor
  · rintro ⟨f, ⟨hf, hpre⟩, hs⟩
    exact ⟨f, hf, hpre, hs⟩
  · rintro ⟨f, hf, hpre, hs⟩
    exact ⟨f, ⟨hf, hpre⟩, hs⟩

/-- C3 counterexample: a method whose http annotation matches none of the
five recognized verbs is collected exactly like a method with no
annotation at all - the extraction error is discarded, nothing is
reported, and the collected outputs are indistinguishable. -/

theorem c3_counterexample :
    extractHTTPInfo metaOtherEx = Except.error ExtractError.unsupportedPattern ∧
    extractServices [fileOtherEx] "root" = extractServices [fileNoneEx] "root" := by decide

/-- C3 amended: for a method whose annotation pattern sets none of the
recognized verbs, `extractHTTPInfo` does fail with the distinguishable
unsupported-pattern error, but the Schema Collector silently discards the
error and keeps the method with no binding; the failure is not reported. -/

theorem c3_amended_error_discarded :
    ∀ m : MethodMeta, m.options = some (some HttpRule.other) →
      extractHTTPInfo m = Except.error ExtractError.unsupportedPattern ∧
      ExtractError.unsupportedPattern ≠ ExtractError.noHttp ∧
      collectMethod m = { name := m.name, inputType := m.inputType,
                          outputType := m.outputType, http := none } := by
  intro m h
  have he : extractHTTPInfo m = Except.error ExtractError.unsupportedPattern := by
    unfold extractHTTPInfo
    rw [h]
  refine ⟨he, by decide, ?_⟩
  unfold collectMethod
  rw [he]
  rfl

/-- C3 witness: the amended statement at the concrete unsupported-pattern
method. -/

theorem c3_witness :
    extractHTTPInfo metaOtherEx = Except.error ExtractError.unsupportedPattern ∧
    ExtractError.unsupportedPattern ≠ ExtractError.noHttp ∧
    collectMethod metaOtherEx = { name := "DoThing", inputType := "DoThingRequest",
                                  outputType := "DoThingResponse", http := none } :=
  c3_amended_error_discarded metaOtherEx rfl

/-- C4: of the three malformed configuration shapes, only the missing
colon yields a configuration error.  An empty root-namespace side
(`":client"`) drives `lastPart[:1]` to slice an empty string - a runtime
panic, not an error - and an empty output-subdirectory side (`"foo:"`)
is accepted and returns a successful configuration (with a doubled slash
in the derived package path). -/

theorem c4_malformed_config_outcomes :
    parseClientConfig "nocolon" ""
      = ParseResult.err "invalid client format: nocolon (expected: package:subdir)" ∧
    parseClientConfig ":client" "" = ParseResult.crash ∧
    parseClientConfig "foo:" "" = ParseResult.ok expectedFooCfg := by decide

/-- C5 counterexample: a base ending in `"ClientService"` loses both
suffixes, not only `"Service"`: the code trims `"Service"` and then also
trims `"Client"` from the result. -/

theorem c5_counterexample :
    generatePrivateFieldName "FooClientService" = "foo" ∧ ("foo" : String) ≠ "fooClient" := by
  decide

theorem append_right_ne_empty (s t : String) (ht : t.data ≠ []) : s ++ t ≠ "" := by
  intro h
  have hd := congrArg String.data h
  rw [data_append] at hd
  exact ht (List.append_eq_nil.mp hd).2

theorem goEndsWith_append_self (s suf : String) : goEndsWith (s ++ suf) suf = true := by
  unfold goEndsWith
  rw [data_append]
  exact List.isSuffixOf_iff_suffix.mpr (List.suffix_append _ _)

theorem goTrimSuffix_append (s suf : String) : goTrimSuffix (s ++ suf) suf = s := by
  unfold goTrimSuffix
  rw [if_pos (goEndsWith_append_self s suf), data_append, List.length_append]
  have hlen : s.data.length + suf.data.length - suf.data.length = s.data.length := by omega
  rw [hlen, List.take_left]
  exact ofChars_data s

theorem goEndsWith_client_not_service (s : String) :
    goEndsWith (s ++ "Client") "Service" = false := by
  cases hgo : goEndsWith (s ++ "Client") "Service"
  · rfl
  · exfalso
    have h : ("Service" : String).data <:+ (s ++ "Client").data :=
      List.isSuffixOf_iff_suffix.mp hgo
    rw [data_append] at h
    have h2 := List.reverse_prefix.mpr h
    rw [List.reverse_append] at h2
    rw [show ("Service" : String).data.reverse = 'e' :: ("civreS" : String).data from by decide,
      show ("Client" : String).data.reverse = 't' :: ("neilC" : String).data from by decide] at h2
    rw [List.cons_append] at h2
    exact absurd (List.cons_prefix_cons.mp h2).1 (by decide)

/-- C5 amended: `generatePrivateFieldName` strips a trailing `"Service"`
and then additionally a trailing `"Client"` from the result (up to two
strips - a base ending in `"ClientService"` behaves exactly like the same
base ending in `"Client"` alone), then lower-cases the first character;
the spec's examples hold as stated. -/

theorem c5_amended_double_strip :
    generatePrivateFieldName "AccountsService" = "accounts" ∧
    generatePrivateFieldName "InvestmentsClient" = "investments" ∧
    generatePrivateFieldName "" = "" ∧
    (∀ s : String,
      generatePrivateFieldName (s ++ "ClientService") = generatePrivateFieldName (s ++ "Client")) := by
  refine ⟨by decide, by decide, by decide, ?_⟩
  intro s
  have hne1 : s ++ "ClientService" ≠ "" := append_right_ne_empty s "ClientService" (by decide)
  have hne2 : s ++ "Client" ≠ "" := append_right_ne_empty s "Client" (by decide)
  unfold generatePrivateFieldName
  rw [if_neg hne1, if_neg hne2]
  have e1 : goTrimSuffix (s ++ "ClientService") "Service" = s ++ "Client" := by
    have hsplit : s ++ "ClientService" = (s ++ "Client") ++ "Service" := by
      rw [String.append_assoc]
      rfl
    rw [hsplit, goTrimSuffix_append]
  have e2 : goTrimSuffix (s ++ "Client") "Service" = s ++ "Client" := by
    unfold goTrimSuffix
    rw [goEndsWith_client_not_service]
    simp
  rw [e1, e2]

/-- C9: the bases `"Service"`, `"Client"` and `"ClientService"` are
non-empty service names whose derived private field name is the empty
string (an invalid Go identifier at the generated-code surface). -/

theorem c9_suffix_only_names_collapse :
    generatePrivateFieldName "Service" = "" ∧
    generatePrivateFieldName "Client" = "" ∧
    generatePrivateFieldName "ClientService" = "" ∧
    ("Service" : String) ≠ "" ∧ ("Client" : String) ≠ "" ∧ ("ClientService" : String) ≠ "" := by
  decide

theorem stringFold_eq (ps : List (List Char)) : ∀ t : String,
    (ps.map ofChars).foldl
        (fun t param => goReplaceFirst t ("\x7b" ++ param ++ "\x7d") "%s") t
      = ofChars (ps.foldl stepRepl t.data) := by
  induction ps with
  | nil => intro t; exact (ofChars_data t).symm
  | cons p ps ih =>
    intro t
    rw [List.map_cons, List.foldl_cons, List.foldl_cons, ih]
    have hdata : (goReplaceFirst t ("\x7b" ++ ofChars p ++ "\x7d") "%s").data = stepRepl t.data p := by
      unfold goReplaceFirst stepRepl
      rw [data_ofChars]
      have hpat : ("\x7b" ++ ofChars p ++ "\x7d").data = ('{' :: p) ++ ['}'] := by
        rw [data_append, data_append, data_ofChars]
        rfl
      rw [hpat]
    rw [hdata]

/-- C8: when the parameter list is exactly the left-to-right placeholder
list of the template, the compiled path construction replaces each
placeholder occurrence, leftmost first, by its own `%s` slot - a repeated
name gets one independent slot per occurrence - and binds the slots, in
template-occurrence order, to `req.<PascalName>` arguments derived by the
snake-to-Pascal transform of each parameter name. -/

theorem c8_path_compilation (path : String) (params : List String)
    (h : params = extractPathParams path) :
    buildPathConstruction path params =
      "fmt.Sprintf(\"" ++ ofChars (substSlotsL path.data) ++ "\", " ++
        joinSep ", " (params.map (fun p => "req." ++ snakeToPascal p)) ++ ")" := by
  unfold buildPathConstruction
  have htempl : params.foldl
      (fun t param => goReplaceFirst t ("\x7b" ++ param ++ "\x7d") "%s") path
      = ofChars (substSlotsL path.data) := by
    rw [h]
    unfold extractPathParams
    rw [stringFold_eq, foldl_stepRepl_eq_substSlots]
  rw [htempl]

/-- C8 witness: the two-parameter spec example, including a repeated
parameter name receiving two independent slots. -/

theorem c8_witness :
    (["link_id", "investment_id"]
        = extractPathParams "/v1/data/links/\x7blink_id\x7d/data/investments/\x7binvestment_id\x7d") ∧
    buildPathConstruction "/v1/data/links/\x7blink_id\x7d/data/investments/\x7binvestment_id\x7d"
        ["link_id", "investment_id"]
      = "fmt.Sprintf(\"" ++
          ofChars (substSlotsL
            ("/v1/data/links/\x7blink_id\x7d/data/investments/\x7binvestment_id\x7d" : String).data) ++
          "\", " ++
          joinSep ", " (["link_id", "investment_id"].map (fun p => "req." ++ snakeToPascal p)) ++
          ")" ∧
    buildPathConstruction "/v1/links/\x7bid\x7d/\x7bid\x7d" ["id", "id"]
      = "fmt.Sprintf(\"/v1/links/%s/%s\", req.Id, req.Id)" :=
  ⟨by decide,
   c8_path_compilation "/v1/data/links/\x7blink_id\x7d/data/investments/\x7binvestment_id\x7d"
     ["link_id", "investment_id"] (by decide),
   by decide⟩

theorem emittedMethods_length (ms : List Method) :
    (emittedMethods ms).length = (ms.filter (fun m => m.http.isSome)).length := by
  induction ms with
  | nil => rfl
  | cons m ms ih =>
    simp only [emittedMethods] at ih ⊢
    rw [List.filterMap_cons, List.filter_cons]
    cases hm : m.http <;> simp [hm, ih]

/-- C10: the Schema Collector keeps every declared method of a service -
the collected method list is a permutation (a by-name sort) of all
declared methods, each carrying the extraction result as an optional
binding, so failed or absent extraction leaves the method in place with
no binding; only the emission stage drops the unbound methods, keeping
exactly the methods whose binding is present. -/

theorem c10_unbound_methods_kept_then_skipped :
    (∀ (f : ProtoFile) (svc : ProtoService),
        ((mkService f svc).methods).Perm (svc.methods.map collectMethod)) ∧
    (∀ meta : MethodMeta,
        collectMethod meta = { name := meta.name, inputType := meta.inputType,
                               outputType := meta.outputType,
                               http := (extractHTTPInfo meta).toOption }) ∧
    (∀ ms : List Method,
        (emittedMethods ms).length = (ms.filter (fun m => m.http.isSome)).length) ∧
    (∀ (ms : List Method) (m : Method) (hi : HTTPInfo), m ∈ ms → m.http = some hi →
        buildMethodData m hi ∈ emittedMethods ms) := by
  refine ⟨?_, fun _ => rfl, emittedMethods_length, ?_⟩
  · intro f svc
    exact List.perm_insertionSort _ _
  · intro ms m hi hmem hhttp
    unfold emittedMethods
    rw [List.mem_filterMap]
    exact ⟨m, hmem, by rw [hhttp]⟩

/-- C10 witness: a service with one unbound and one bound method keeps
both in collection while emission keeps exactly the bound one. -/

theorem c10_witness :
    buildMethodData mBoundEx hInfoEx ∈ emittedMethods [mUnboundEx, mBoundEx] :=
  c10_unbound_methods_kept_then_skipped.2.2.2 [mUnboundEx, mBoundEx] mBoundEx hInfoEx
    (by decide) rfl

/-- C1: no `UnsupportedEmissionVerb` failure exists in the emission
stage.  A service whose methods are bound to PATCH, DELETE and PUT is
rendered without error; every one of its generated implementation methods
dispatches `s.client.Get(...)` - the template's single dispatch treats
every verb other than POST as GET, silently downgrading PUT, DELETE and
PATCH instead of raising the error the specification requires. -/

theorem c1_put_delete_patch_downgraded :
    ((emittedMethods verbSvcEx.methods).map renderDispatch
        = ["err := s.client.Get(ctx, path, resp)\n\t",
           "err := s.client.Get(ctx, path, resp)\n\t",
           "err := s.client.Get(ctx, path, resp)\n\t"]) ∧
    containsSubstr "err := s.client.Get(ctx, path, resp)" (generateService verbSvcEx cfgEx) = true ∧
    containsSubstr "makes a PUT request to /v1/things" (generateService verbSvcEx cfgEx) = true ∧
    containsSubstr "s.client.Post(" (generateService verbSvcEx cfgEx) = false ∧
    containsSubstr "UnsupportedEmissionVerb" (generateService verbSvcEx cfgEx) = false := by
  refine ⟨by decide, by decide, by decide, by decide, by decide⟩

end BufGen

